import Mathlib

/-!
Verification development for the word-visualisation repository.

Shallow embedding of the two source files:
  * `word-cloud.js`   — classes `WordCloud`, `FemaleCloud`, `MaleCloud`
  * `word-processing.js` — class `WordProcessing`
plus the extraction step of `main.js`.

JavaScript numbers are modelled by `JSNum` (finite rationals plus the three
IEEE special values reachable here: +Infinity, -Infinity, NaN), strings by
`String`, arrays by `List`, and the two remote services by explicit response
functions passed as parameters.  The stateful field write performed by
`getWordFrequency` is modelled by threading the `WordProcessing` record.
-/

/-- Model of a JavaScript number: a finite rational, one of the two
infinities, or NaN.  Only the operations used by the embedded code are
defined. -/
inductive JSNum where
  | num (q : ℚ)
  | posInf
  | negInf
  | nan
deriving DecidableEq

/-- JavaScript addition on `JSNum` (IEEE rules for the reachable cases). -/
def JSNum.add : JSNum → JSNum → JSNum
  | .nan, _ => .nan
  | _, .nan => .nan
  | .num a, .num b => .num (a + b)
  | .num _, .posInf => .posInf
  | .num _, .negInf => .negInf
  | .posInf, .num _ => .posInf
  | .negInf, .num _ => .negInf
  | .posInf, .posInf => .posInf
  | .negInf, .negInf => .negInf
  | .posInf, .negInf => .nan
  | .negInf, .posInf => .nan

/-- JavaScript negation on `JSNum`. -/
def JSNum.neg : JSNum → JSNum
  | .nan => .nan
  | .posInf => .negInf
  | .negInf => .posInf
  | .num a => .num (-a)

/-- JavaScript subtraction on `JSNum`, as addition of the negation. -/
def JSNum.sub (a b : JSNum) : JSNum := a.add b.neg

/-- JavaScript multiplication on `JSNum`; `0 * ±Infinity` is NaN. -/
def JSNum.mul : JSNum → JSNum → JSNum
  | .nan, _ => .nan
  | _, .nan => .nan
  | .num a, .num b => .num (a * b)
  | .num a, .posInf => if a > 0 then .posInf else if a < 0 then .negInf else .nan
  | .num a, .negInf => if a > 0 then .negInf else if a < 0 then .posInf else .nan
  | .posInf, .num a => if a > 0 then .posInf else if a < 0 then .negInf else .nan
  | .negInf, .num a => if a > 0 then .negInf else if a < 0 then .posInf else .nan
  | .posInf, .posInf => .posInf
  | .posInf, .negInf => .negInf
  | .negInf, .posInf => .negInf
  | .negInf, .negInf => .posInf

/-- JavaScript division on `JSNum`; `0 / 0` is NaN and `x / 0` for finite
nonzero `x` is a signed infinity (negative zero is not modelled — it is
unreachable in the embedded code). -/
def JSNum.div : JSNum → JSNum → JSNum
  | .nan, _ => .nan
  | _, .nan => .nan
  | .num a, .num b =>
      if b = 0 then (if a = 0 then .nan else if a > 0 then .posInf else .negInf)
      else .num (a / b)
  | .num _, .posInf => .num 0
  | .num _, .negInf => .num 0
  | .posInf, .num b => if b ≥ 0 then .posInf else .negInf
  | .negInf, .num b => if b ≥ 0 then .negInf else .posInf
  | .posInf, .posInf => .nan
  | .posInf, .negInf => .nan
  | .negInf, .posInf => .nan
  | .negInf, .negInf => .nan

/-- Binary `Math.max` on `JSNum`: NaN-propagating, otherwise the larger. -/
def JSNum.maxOp : JSNum → JSNum → JSNum
  | .nan, _ => .nan
  | _, .nan => .nan
  | .posInf, _ => .posInf
  | _, .posInf => .posInf
  | .negInf, b => b
  | a, .negInf => a
  | .num a, .num b => .num (max a b)

/-- Binary `Math.min` on `JSNum`: NaN-propagating, otherwise the smaller. -/
def JSNum.minOp : JSNum → JSNum → JSNum
  | .nan, _ => .nan
  | _, .nan => .nan
  | .negInf, _ => .negInf
  | _, .negInf => .negInf
  | .posInf, b => b
  | a, .posInf => a
  | .num a, .num b => .num (min a b)

/-- Whether a `JSNum` is a finite number (neither infinite nor NaN). -/
def JSNum.isFiniteNum : JSNum → Bool
  | .num _ => true
  | _ => false

/-- Model of the spread call `Math.max(...l)`: fold of binary max over the
list starting from `-Infinity` (the value of `Math.max()` with no
arguments). -/
def jsMaxList (l : List JSNum) : JSNum := l.foldl JSNum.maxOp .negInf

/-- Model of the spread call `Math.min(...l)`: fold of binary min over the
list starting from `+Infinity`. -/
def jsMinList (l : List JSNum) : JSNum := l.foldl JSNum.minOp .posInf

/-- Embedding of `MaleCloud.#scaleFontSize` (word-cloud.js lines 206-211):
`minSize + (frequency - minFrequency) * (maxSize - minSize) /
(maxFrequency - minFrequency)` with `minSize = 10`, `maxSize = 42`. -/
def MaleCloud.scaleFontSize (frequency minFrequency maxFrequency : JSNum) : JSNum :=
  let minSize : JSNum := .num 10
  let maxSize : JSNum := .num 42
  minSize.add
    (((frequency.sub minFrequency).mul (maxSize.sub minSize)).div
      (maxFrequency.sub minFrequency))

/-- Embedding of the size computation of `MaleCloud.drawCloud`
(word-cloud.js lines 174-195): `maxFrequency` and `minFrequency` are the
unguarded `Math.max(...)` / `Math.min(...)` over the frequencies of
`this.words`, and each word is mapped to its scaled font size.  A word is
modelled as a pair of its `text` and its `frequency`. -/
def MaleCloud.drawCloudSizes (words : List (String × JSNum)) : List (String × JSNum) :=
  let maxFrequency := jsMaxList (words.map (·.2))
  let minFrequency := jsMinList (words.map (·.2))
  words.map (fun w => (w.1, MaleCloud.scaleFontSize w.2 minFrequency maxFrequency))

/-- The pair `(minFrequency, maxFrequency)` computed by
`MaleCloud.drawCloud` before any size is derived. -/
def MaleCloud.drawCloudFreqBounds (words : List (String × JSNum)) : JSNum × JSNum :=
  (jsMinList (words.map (·.2)), jsMaxList (words.map (·.2)))

/-- State of a `WordProcessing` instance (word-processing.js lines 268-271):
the two base URLs stored by the constructor. -/
structure WordProcessing where
  wordnikBaseUrl : String
  datamuseBaseUrl : String
deriving DecidableEq

/-- The string constant assigned to `this.datamuseBaseUrl` inside the
template literal of `getWordFrequency` (word-processing.js line 342). -/
def datamuseWordsUrl : String := "https://api.datamuse.com/words"

/-- One element of a Datamuse response array; only its `score` field is
read by the embedded code. -/
structure DatamuseMatch where
  score : ℚ
deriving DecidableEq

/-- One entry of the frequency index built by `getWordFrequency`: the
object `{word, frequency}`. -/
structure FreqEntry where
  word : String
  frequency : ℚ
deriving DecidableEq

/-- Embedding of `WordProcessing.getWordFrequency` (word-processing.js
lines 339-358).  `fetchF` models `fetch` + `response.json()` for the URL
built from a word: `Except.ok data` is a parsed JSON array, `Except.error`
a rejected promise (transport error or malformed body).  Keying `fetchF`
by the word is faithful because the base URL of every request is the
constant `datamuseWordsUrl` (see below).  The first component is the value
of the `Promise.all` promise: since the per-word callbacks contain no
`try`/`catch`, a single rejection rejects the whole batch (`Except.error`),
while all-success yields the entry list in input order.  The second
component is the `WordProcessing` state after the call: every callback
evaluates `this.datamuseBaseUrl = 'https://api.datamuse.com/words'` while
building its request URL, so the field is overwritten once per word. -/
def getWordFrequency (fetchF : String → Except String (List DatamuseMatch))
    (st : WordProcessing) :
    List String → Except String (List FreqEntry) × WordProcessing
  | [] => (Except.ok [], st)
  | w :: ws =>
    let st1 : WordProcessing := { st with datamuseBaseUrl := datamuseWordsUrl }
    let rest := getWordFrequency fetchF st1 ws
    match fetchF w with
    | Except.error e => (Except.error e, rest.2)
    | Except.ok data =>
      match rest.1 with
      | Except.error e => (Except.error e, rest.2)
      | Except.ok tail =>
        match data with
        | [] => (Except.ok ({ word := w, frequency := 0 } :: tail), rest.2)
        | m :: _ => (Except.ok ({ word := w, frequency := m.score } :: tail), rest.2)

/-- The frequency entry `getWordFrequency` builds for one word from its
parsed response array: first match score if the array is non-empty,
otherwise 0. -/
def freqEntryOf (resp : String → List DatamuseMatch) (w : String) : FreqEntry :=
  match resp w with
  | [] => { word := w, frequency := 0 }
  | m :: _ => { word := w, frequency := m.score }

/-- One element of a Wordnik relatedWords response array: the fields
`relationshipType` and `words` read by the embedded code. -/
structure RelEntry where
  relationshipType : String
  words : List String
deriving DecidableEq

/-- Outcome of one `fetch` to the Wordnik relatedWords endpoint:
a successful response with parsed array `data` (`response.ok` true),
a non-success response (the `else` branch logging `response.statusText`),
or a rejected promise caught by the `try`/`catch`. -/
inductive WordnikOutcome where
  | ok (data : List RelEntry)
  | httpError (statusText : String)
  | transportError (msg : String)
deriving DecidableEq

/-- Whether a `WordnikOutcome` is one of the two failure cases. -/
def WordnikOutcome.isFailure : WordnikOutcome → Bool
  | .ok _ => false
  | .httpError _ => true
  | .transportError _ => true

/-- Contribution of one word to the `synonyms` accumulator of
`WordProcessing.relatedWords` (word-processing.js lines 308-328): on a
successful response, the `words` list of every entry whose
`relationshipType` is `"synonym"` is pushed, in response order; on a
non-success response or a caught transport error the word contributes
nothing (an error is only logged). -/
def relatedWordsStep (fetchR : String → WordnikOutcome) (w : String) :
    List (List String) :=
  match fetchR w with
  | .ok data => (data.filter (fun e => e.relationshipType == "synonym")).map (fun e => e.words)
  | .httpError _ => []
  | .transportError _ => []

/-- Embedding of `WordProcessing.relatedWords` (word-processing.js lines
305-331): the sequential `for`-loop appends each word's contribution to
the `synonyms` array and the whole call always resolves with that array. -/
def relatedWords (fetchR : String → WordnikOutcome) (words : List String) :
    List (List String) :=
  words.flatMap (relatedWordsStep fetchR)

/-- Embedding of `FemaleCloud.getSynonyms` (word-cloud.js lines 100-103):
`this.synonymsArray = (await wordProcessing.relatedWords(...)).flat()`. -/
def FemaleCloud.getSynonyms (fetchR : String → WordnikOutcome)
    (words : List String) : List String :=
  (relatedWords fetchR words).flatten

/-- Modelled from the spec (section 4.3), for the refinement claim about
`fetchSynonyms`: "scan the response for entries tagged as
relationship-kind synonym; flatten the words from all synonym-tagged
entries across all matched words into the result". -/
def synonymSetSpec (resp : String → List RelEntry) (words : List String) :
    List String :=
  (words.map (fun w =>
    ((resp w).filter (fun e => e.relationshipType == "synonym")).flatMap
      (fun e => e.words))).flatten

/-- Model of `Array.from(new Set(l))` for strings: deduplication keeping
the first occurrence of each element, in insertion order (the iteration
order of a JavaScript `Set`). -/
def dedupFirst : List String → List String
  | [] => []
  | a :: l => a :: dedupFirst (l.filter (· != a))
termination_by l => l.length
decreasing_by
  simp_wf
  exact Nat.lt_succ_of_le (List.length_filter_le _ _)

/-- Embedding of `WordProcessing.filterWords` (word-processing.js lines
279-282): `Array.from(new Set(wordArray)).slice(0, sliceSize)`.  The
`async` wrapper is dropped (the body performs no suspension). -/
def filterWords (wordArray : List String) (sliceSize : Nat) : List String :=
  (dedupFirst wordArray).take sliceSize

/-- Swap of two positions of a list, the meaning of the destructuring
assignment `[a[i], a[j]] = [a[j], a[i]]`; out-of-range indices (unreachable
in the embedded loop) leave the list unchanged. -/
def listSwap {α : Type} (l : List α) (i j : Nat) : List α :=
  match l[i]?, l[j]? with
  | some x, some y => (l.set i y).set j x
  | _, _ => l

/-- Descending loop of `WordProcessing.shuffleArray`: `shuffleAux rand i l`
performs the iterations with loop counter `i, i-1, ..., 1`, where `rand i`
models `Math.floor(Math.random() * (i + 1))`, the index drawn at counter
value `i`. -/
def shuffleAux {α : Type} (rand : Nat → Nat) : Nat → List α → List α
  | 0, l => l
  | i + 1, l => shuffleAux rand i (listSwap l (i + 1) (rand (i + 1)))

/-- Embedding of `WordProcessing.shuffleArray` (word-processing.js lines
290-296): Fisher-Yates from index `length - 1` down to `1`, with the
random draws supplied by `rand`.  The `async` wrapper is dropped. -/
def shuffleArray {α : Type} (rand : Nat → Nat) (l : List α) : List α :=
  shuffleAux rand (l.length - 1) l

/-- ASCII fragment of the JavaScript regexp class `\s`, enough for the
embedded data: space, tab, line feed, carriage return, vertical tab, form
feed. -/
def jsIsSpace (c : Char) : Bool :=
  c == ' ' || c == '\t' || c == '\n' || c == '\r' || c.toNat == 11 || c.toNat == 12

/-- The regexp class `[a-zA-Z]`. -/
def isAsciiAlpha (c : Char) : Bool :=
  ('a' ≤ c && c ≤ 'z') || ('A' ≤ c && c ≤ 'Z')

/-- Character-level composition of `.toLowerCase()` followed by
`.replace(/[^a-zA-Z\s]/g, ' ')` (main.js lines 49-51): lowercase the
character, then replace it by a space unless it is alphabetic or
whitespace. -/
def cleanChar (c : Char) : Char :=
  let lc := c.toLower
  if isAsciiAlpha lc || jsIsSpace lc then lc else ' '

/-- Model of `.split(/\s+/)` on a character list, matching JavaScript
`String.prototype.split(/\s+/)`: the fields are the segments between
maximal whitespace runs, including an empty field when the string starts
or ends with whitespace, and `[""]` for the empty string.  Implemented by
right recursion with a one-character lookahead so that a whole whitespace
run contributes a single field boundary: a space whose successor is also
a space is absorbed into the run already processed. -/
def splitWs : List Char → List (List Char)
  | [] => [[]]
  | c :: rest =>
    let r := splitWs rest
    if jsIsSpace c then
      match rest with
      | [] => [] :: r
      | c2 :: _ => if jsIsSpace c2 then r else [] :: r
    else
      match r with
      | [] => [[c]]
      | f :: fs => (c :: f) :: fs

/-- Token list produced from one row's `indicator_name` value (main.js
lines 48-54): lowercase, replace non-alphabetic characters by spaces,
split on whitespace runs. -/
def rowTokens (row : String) : List String :=
  (splitWs (row.data.map cleanChar)).map (fun cs => String.mk cs)

/-- Truthiness of a JavaScript array value: every array object is truthy,
so the predicate `word => word` of `.filter(word => word)` (main.js line
55), applied to the per-row token *arrays*, is constantly true. -/
def jsArrayTruthy (_tokens : List String) : Bool := true

/-- Embedding of the `words` constant of main.js (lines 47-55): per-row
token arrays, then the row-level `.filter(word => word)`. -/
def extractWords (rows : List String) : List (List String) :=
  (rows.map rowTokens).filter jsArrayTruthy

/-- Embedding of the extraction step producing a vocabulary (main.js line
58): `Array.from(new Set(words.flat()))`. -/
def extractVocabulary (rows : List String) : List String :=
  dedupFirst (extractWords rows).flatten

/-- The `WordProcessing` instance constructed in main.js line 38. -/
def wpMain : WordProcessing :=
  { wordnikBaseUrl := "https://api.wordnik.com/v4/word.json"
    datamuseBaseUrl := "https://api.datamuse.com/words" }

/-- Concrete Datamuse response table used as a witness environment: one
match of score 3 for "cat", an empty response array for anything else. -/
def respW (w : String) : List DatamuseMatch :=
  if w = "cat" then [{ score := 3 }] else []

/-- Concrete frequency fetch environment in which the request for "zzz"
is a rejected promise and every other request resolves. -/
def fetchFailW (w : String) : Except String (List DatamuseMatch) :=
  if w = "zzz" then Except.error "TransportError" else Except.ok [{ score := 5 }]

/-- Concrete Wordnik fetch environment in which the request for "zzz"
fails at transport level and every other word has one synonym entry. -/
def fetchRW (w : String) : WordnikOutcome :=
  if w = "zzz" then WordnikOutcome.transportError "NetworkError"
  else WordnikOutcome.ok [{ relationshipType := "synonym", words := [w] }]

/-- Helper: the deduplicated list is a sublist of the original, so its
elements appear in an order compatible with the original. -/
theorem dedupFirst_sublist : ∀ l : List String, (dedupFirst l).Sublist l
  | [] => by simp [dedupFirst]
  | a :: l => by
    have ih := dedupFirst_sublist (l.filter (· != a))
    rw [dedupFirst]
    exact (ih.trans (List.filter_sublist l)).cons₂ a
termination_by l => l.length
decreasing_by
  exact Nat.lt_succ_of_le (List.length_filter_le _ _)

/-- Helper: `dedupFirst` neither loses nor invents elements. -/
theorem mem_dedupFirst : ∀ (l : List String) (x : String), x ∈ dedupFirst l ↔ x ∈ l
  | [], x => by simp [dedupFirst]
  | a :: l, x => by
    rw [dedupFirst]
    constructor
    · intro h
      rcases List.mem_cons.mp h with h | h
      · exact h ▸ List.mem_cons_self a l
      · have hx := (mem_dedupFirst (l.filter (· != a)) x).mp h
        exact List.mem_cons_of_mem a (List.mem_filter.mp hx).1
    · intro h
      rcases List.mem_cons.mp h with h | h
      · exact h ▸ List.mem_cons_self x _
      · by_cases hxa : x = a
        · exact hxa ▸ List.mem_cons_self a _
        · refine List.mem_cons_of_mem a ?_
          refine (mem_dedupFirst (l.filter (· != a)) x).mpr ?_
          exact List.mem_filter.mpr ⟨h, by simpa [bne_iff_ne] using hxa⟩
termination_by l _ => l.length
decreasing_by
  all_goals exact Nat.lt_succ_of_le (List.length_filter_le _ _)

/-- Helper: the deduplicated list has no duplicates. -/
theorem dedupFirst_nodup : ∀ l : List String, (dedupFirst l).Nodup
  | [] => by simp [dedupFirst]
  | a :: l => by
    rw [dedupFirst]
    refine List.nodup_cons.mpr ⟨?_, dedupFirst_nodup (l.filter (· != a))⟩
    intro hmem
    have hx := (mem_dedupFirst _ a).mp hmem
    have h2 := (List.mem_filter.mp hx).2
    simp at h2
termination_by l => l.length
decreasing_by
  exact Nat.lt_succ_of_le (List.length_filter_le _ _)

/-- Helper: the length of the deduplicated list is the number of distinct
elements of the original. -/
theorem dedupFirst_length (l : List String) : (dedupFirst l).length = l.toFinset.card := by
  have hfin : (dedupFirst l).toFinset = l.toFinset := by
    ext x
    simp [List.mem_toFinset, mem_dedupFirst]
  rw [← hfin, List.toFinset_card_of_nodup (dedupFirst_nodup l)]

/-- Helper: removing all copies of a third element preserves the relative
order of the first occurrences of two remaining elements. -/
theorem indexOf_filter_lt {a x y : String} :
    ∀ l : List String, x ≠ a → y ≠ a → x ∈ l → y ∈ l →
      List.indexOf x (l.filter (· != a)) < List.indexOf y (l.filter (· != a)) →
      List.indexOf x l < List.indexOf y l
  | [], _, _, hx, _, _ => absurd hx (List.not_mem_nil x)
  | c :: t, hxa, hya, hx, hy, hlt => by
    by_cases hca : c = a
    · subst hca
      have hxt : x ∈ t := (List.mem_cons.mp hx).resolve_left hxa
      have hyt : y ∈ t := (List.mem_cons.mp hy).resolve_left hya
      have hfilter : (c :: t).filter (· != c) = t.filter (· != c) := by
        simp [List.filter_cons]
      rw [hfilter] at hlt
      rw [List.indexOf_cons_ne t (Ne.symm hxa), List.indexOf_cons_ne t (Ne.symm hya)]
      exact Nat.succ_lt_succ (indexOf_filter_lt t hxa hya hxt hyt hlt)
    · have hfilter : (c :: t).filter (· != a) = c :: t.filter (· != a) := by
        simp [List.filter_cons, bne_iff_ne, hca]
      rw [hfilter] at hlt
      by_cases hxc : x = c
      · have hyc : y ≠ c := by
          intro hyceq
          rw [List.indexOf_cons_eq _ hyceq.symm, List.indexOf_cons_eq _ hxc.symm] at hlt
          exact absurd hlt (lt_irrefl 0)
        rw [List.indexOf_cons_eq t hxc.symm, List.indexOf_cons_ne t (Ne.symm hyc)]
        exact Nat.succ_pos _
      · have hyc : y ≠ c := by
          intro hyceq
          rw [List.indexOf_cons_eq _ hyceq.symm, List.indexOf_cons_ne _ (Ne.symm hxc)] at hlt
          exact Nat.not_lt_zero _ hlt
        rw [List.indexOf_cons_ne _ (Ne.symm hxc), List.indexOf_cons_ne _ (Ne.symm hyc)] at hlt
        rw [List.indexOf_cons_ne t (Ne.symm hxc), List.indexOf_cons_ne t (Ne.symm hyc)]
        have hxt : x ∈ t := (List.mem_cons.mp hx).resolve_left hxc
        have hyt : y ∈ t := (List.mem_cons.mp hy).resolve_left hyc
        exact Nat.succ_lt_succ
          (indexOf_filter_lt t hxa hya hxt hyt (Nat.lt_of_succ_lt_succ hlt))

/-- Helper: the elements of `dedupFirst l` are listed in strictly
increasing order of first occurrence in `l`. -/
theorem dedupFirst_pairwise_indexOf :
    ∀ l : List String,
      (dedupFirst l).Pairwise (fun x y => List.indexOf x l < List.indexOf y l)
  | [] => by simp [dedupFirst]
  | a :: l => by
    rw [dedupFirst]
    refine List.pairwise_cons.mpr ⟨?_, ?_⟩
    · intro y hy
      have hmem := List.mem_filter.mp ((mem_dedupFirst _ y).mp hy)
      have hya : y ≠ a := by simpa [bne_iff_ne] using hmem.2
      rw [List.indexOf_cons_self, List.indexOf_cons_ne l (Ne.symm hya)]
      exact Nat.succ_pos _
    · have ih := dedupFirst_pairwise_indexOf (l.filter (· != a))
      refine ih.imp_of_mem ?_
      intro x y hx hy hlt
      have hxf := List.mem_filter.mp ((mem_dedupFirst _ x).mp hx)
      have hyf := List.mem_filter.mp ((mem_dedupFirst _ y).mp hy)
      have hxa : x ≠ a := by simpa [bne_iff_ne] using hxf.2
      have hya : y ≠ a := by simpa [bne_iff_ne] using hyf.2
      rw [List.indexOf_cons_ne l (Ne.symm hxa), List.indexOf_cons_ne l (Ne.symm hya)]
      exact Nat.succ_lt_succ (indexOf_filter_lt l hxa hya hxf.1 hyf.1 hlt)
termination_by l => l.length
decreasing_by
  all_goals exact Nat.lt_succ_of_le (List.length_filter_le _ _)

/-- C7: for every word list `v` and bound `n`, `filterWords v n` returns a
sequence of length at most `min n` (number of distinct elements of `v`),
whose elements are all drawn from `v`, contain no duplicates, and appear
in strictly increasing order of first occurrence in `v` (`List.indexOf`
is the position of the first occurrence); determinism is inherent, since
the embedding is a pure function of `v` and `n`. -/
theorem claim7_filterWords_spec (v : List String) (n : Nat) :
    (filterWords v n).length ≤ min n v.toFinset.card ∧
    (∀ x ∈ filterWords v n, x ∈ v) ∧
    (filterWords v n).Nodup ∧
    (filterWords v n).Pairwise (fun x y => List.indexOf x v < List.indexOf y v) := by
  refine ⟨?_, ?_, ?_, ?_⟩
  · rw [filterWords, List.length_take, dedupFirst_length]
  · intro x hx
    exact (mem_dedupFirst v x).mp ((List.take_sublist n _).subset hx)
  · exact (List.take_sublist n _).nodup (dedupFirst_nodup v)
  · exact (dedupFirst_pairwise_indexOf v).sublist (List.take_sublist n _)

/-- Helper: replacing position `k` by `a` and moving the old inhabitant
`y` to the front is a permutation of consing `a`. -/
theorem swapCoreAux {α : Type} : ∀ (t : List α) (k : Nat) (a y : α),
    t[k]? = some y → (y :: t.set k a).Perm (a :: t)
  | [], k, _, _, h => by simp at h
  | b :: t, 0, a, y, h => by
    simp at h
    subst h
    simpa using List.Perm.swap a b t
  | b :: t, k + 1, a, y, h => by
    simp at h
    have ih := swapCoreAux t k a y h
    show (y :: b :: t.set k a).Perm (a :: b :: t)
    exact ((List.Perm.swap b y (t.set k a)).trans (ih.cons b)).trans (List.Perm.swap a b t)

/-- Helper: the two `set` operations realising an index swap produce a
permutation of the original list. -/
theorem swapCore {α : Type} : ∀ (l : List α) (i j : Nat) (x y : α),
    l[i]? = some x → l[j]? = some y → ((l.set i y).set j x).Perm l
  | [], _, _, _, _, hx, _ => by simp at hx
  | a :: t, 0, 0, x, y, hx, hy => by
    simp at hx hy
    subst hx; subst hy
    simp
  | a :: t, 0, j + 1, x, y, hx, hy => by
    simp at hx hy
    subst hx
    simpa using swapCoreAux t j a y hy
  | a :: t, i + 1, 0, x, y, hx, hy => by
    simp at hx hy
    subst hy
    simpa using swapCoreAux t i a x hx
  | a :: t, i + 1, j + 1, x, y, hx, hy => by
    simp at hx hy
    have ih := swapCore t i j x y hx hy
    simpa using ih.cons a

/-- Helper: one destructuring swap is a permutation. -/
theorem listSwap_perm {α : Type} (l : List α) (i j : Nat) : (listSwap l i j).Perm l := by
  unfold listSwap
  split
  · next x y hx hy => exact swapCore l i j x y hx hy
  · exact List.Perm.refl l

/-- Helper: the whole descending shuffle loop is a permutation. -/
theorem shuffleAux_perm {α : Type} (rand : Nat → Nat) :
    ∀ (fuel : Nat) (l : List α), (shuffleAux rand fuel l).Perm l
  | 0, l => List.Perm.refl l
  | i + 1, l =>
    (shuffleAux_perm rand i _).trans (listSwap_perm l (i + 1) (rand (i + 1)))

/-- C8: for every input array and every sequence of random draws,
`shuffleArray` returns a permutation of its input: the same multiset
(same elements with the same multiplicities) and the same length. -/
theorem claim8_shuffle_perm {α : Type} (rand : Nat → Nat) (l : List α) :
    (shuffleArray rand l).Perm l ∧
    ((shuffleArray rand l : List α) : Multiset α) = (l : Multiset α) ∧
    (shuffleArray rand l).length = l.length := by
  have h : (shuffleArray rand l).Perm l := shuffleAux_perm rand (l.length - 1) l
  exact ⟨h, Quot.sound h, h.length_eq⟩

/-- C1: refuted on the code — with all-equal frequencies the scaling
function produces NaN, not a defined fallback.  `#scaleFontSize` has no
guard for `maxFrequency == minFrequency`: at three words all of frequency
5 the formula evaluates `0 * 32 / 0`, which is NaN, and `drawCloud`
therefore assigns NaN as every word's display size. -/
theorem claim1_all_equal_frequencies_yield_nan :
    MaleCloud.scaleFontSize (JSNum.num 5) (JSNum.num 5) (JSNum.num 5) = JSNum.nan ∧
    MaleCloud.drawCloudSizes
        [("alpha", JSNum.num 5), ("beta", JSNum.num 5), ("gamma", JSNum.num 5)] =
      [("alpha", JSNum.nan), ("beta", JSNum.nan), ("gamma", JSNum.nan)] := by
  constructor
  · norm_num [MaleCloud.scaleFontSize, JSNum.add, JSNum.sub, JSNum.neg, JSNum.mul, JSNum.div]
  · norm_num [MaleCloud.drawCloudSizes, jsMaxList, jsMinList, JSNum.maxOp, JSNum.minOp,
      MaleCloud.scaleFontSize, JSNum.add, JSNum.sub, JSNum.neg, JSNum.mul, JSNum.div]

/-- C2, counterexample: the claim states that no unguarded empty-sequence
max/min is evaluated, but on the empty word set `drawCloud` computes the
unguarded `Math.min(...[])` and `Math.max(...[])`, whose values are the
JavaScript empty-spread artifacts `+Infinity` and `-Infinity` — not any
finite fallback. -/
theorem claim2_empty_words_minmax_unguarded :
    MaleCloud.drawCloudFreqBounds [] = (JSNum.posInf, JSNum.negInf) ∧
    (MaleCloud.drawCloudFreqBounds []).1.isFiniteNum = false ∧
    (MaleCloud.drawCloudFreqBounds []).2.isFiniteNum = false :=
  ⟨rfl, rfl, rfl⟩

/-- C2, amended: on an empty word set the unguarded empty-spread min/max
are evaluated and yield `+Infinity`/`-Infinity`, but no per-word size is
computed (the size list is empty), so every computed size is vacuously
defined and non-NaN and no arithmetic fault occurs. -/
theorem claim2_empty_words_no_size_computed :
    MaleCloud.drawCloudSizes [] = [] ∧
    MaleCloud.drawCloudFreqBounds [] = (JSNum.posInf, JSNum.negInf) :=
  ⟨rfl, rfl⟩

/-- Helper for C3: on the all-requests-resolve path, `getWordFrequency`
returns exactly the per-word entries in input order. -/
theorem getWordFrequency_ok_aux (fetchF : String → Except String (List DatamuseMatch))
    (resp : String → List DatamuseMatch) :
    ∀ (words : List String) (st : WordProcessing),
      (∀ w ∈ words, fetchF w = Except.ok (resp w)) →
      (getWordFrequency fetchF st words).1 = Except.ok (words.map (freqEntryOf resp))
  | [], _, _ => rfl
  | w :: ws, st, h => by
    have hw := h w (List.mem_cons_self w ws)
    have hws : ∀ x ∈ ws, fetchF x = Except.ok (resp x) :=
      fun x hx => h x (List.mem_cons_of_mem w hx)
    have ih := getWordFrequency_ok_aux fetchF resp ws
      { st with datamuseBaseUrl := datamuseWordsUrl } hws
    cases hr : resp w with
    | nil => simp [getWordFrequency, hw, hr, ih, freqEntryOf]
    | cons m ms => simp [getWordFrequency, hw, hr, ih, freqEntryOf]

/-- C3: when every word's request resolves with a parsed array,
`getWordFrequency` returns exactly one index entry per input word — the
result is the input list mapped through `freqEntryOf`, whose length
equals the number of input words — where each entry carries the first
match's score when the response array is non-empty and 0 when it is
empty. -/
theorem claim3_one_entry_per_word (fetchF : String → Except String (List DatamuseMatch))
    (resp : String → List DatamuseMatch) (st : WordProcessing) (words : List String)
    (h : ∀ w ∈ words, fetchF w = Except.ok (resp w)) :
    (getWordFrequency fetchF st words).1 = Except.ok (words.map (freqEntryOf resp)) ∧
    (words.map (freqEntryOf resp)).length = words.length :=
  ⟨getWordFrequency_ok_aux fetchF resp words st h, List.length_map _ _⟩

/-- C3, witness: concrete run over `["cat", "zzz"]` with a response table
giving "cat" one match of score 3 and "zzz" an empty array. -/
theorem claim3_one_entry_per_word_witness :
    (getWordFrequency (fun x => Except.ok (respW x)) wpMain ["cat", "zzz"]).1 =
      Except.ok [{ word := "cat", frequency := 3 }, { word := "zzz", frequency := 0 }] := by
  have h := claim3_one_entry_per_word (fun x => Except.ok (respW x)) respW wpMain
    ["cat", "zzz"] (fun w _ => rfl)
  exact h.1.trans (by simp [freqEntryOf, respW])

/-- C4: refuted on the code — the per-word callbacks of `getWordFrequency`
have no `try`/`catch`, so one rejected request rejects the whole
`Promise.all` batch.  At `["cat", "zzz"]`, where only the request for
"zzz" fails, the batch returns the transport error and the result for
"cat" is not returned. -/
theorem claim4_single_failure_rejects_batch :
    (getWordFrequency fetchFailW wpMain ["cat", "zzz"]).1 =
      Except.error "TransportError" := by
  rfl

/-- C5: in `relatedWords` a non-success response or transport failure for
a single word only removes that word's contribution: the batch total is
the concatenation of the contributions of the surrounding words, and the
call always resolves (the embedding is a total function). -/
theorem claim5_failed_word_skipped (fetchR : String → WordnikOutcome)
    (ws1 ws2 : List String) (w : String) (h : (fetchR w).isFailure = true) :
    relatedWords fetchR (ws1 ++ w :: ws2) =
      relatedWords fetchR ws1 ++ relatedWords fetchR ws2 := by
  have hw : relatedWordsStep fetchR w = [] := by
    cases hf : fetchR w with
    | ok d => rw [hf] at h; simp [WordnikOutcome.isFailure] at h
    | httpError s => simp [relatedWordsStep, hf]
    | transportError s => simp [relatedWordsStep, hf]
  simp [relatedWords, hw]

/-- C5, witness: concrete batch `["alpha", "zzz", "beta"]` where the
request for "zzz" fails at transport level. -/
theorem claim5_failed_word_skipped_witness :
    (fetchRW "zzz").isFailure = true ∧
    relatedWords fetchRW (["alpha"] ++ "zzz" :: ["beta"]) =
      relatedWords fetchRW ["alpha"] ++ relatedWords fetchRW ["beta"] :=
  ⟨rfl, claim5_failed_word_skipped fetchRW ["alpha"] ["beta"] "zzz" rfl⟩

/-- C6: on successful responses, the synonym expansion consumed by
`FemaleCloud.getSynonyms` equals the specification-side definition
`synonymSetSpec` — exactly the entries tagged `relationshipType ==
"synonym"`, flattened across all input words — and duplicates across
source words are preserved: two source words whose responses both carry
the synonym "kid" yield `["kid", "kid"]`. -/
theorem claim6_synonym_entries_flattened (resp : String → List RelEntry)
    (words : List String) :
    FemaleCloud.getSynonyms (fun w => WordnikOutcome.ok (resp w)) words =
      synonymSetSpec resp words ∧
    FemaleCloud.getSynonyms
        (fun _ => WordnikOutcome.ok [{ relationshipType := "synonym", words := ["kid"] }])
        ["boy", "child"] = ["kid", "kid"] := by
  constructor
  · induction words with
    | nil => rfl
    | cons w ws ih =>
      simp only [FemaleCloud.getSynonyms, relatedWords, List.flatMap_cons,
        List.flatten_append, synonymSetSpec, List.map_cons, List.flatten_cons] at ih ⊢
      rw [ih]
      congr 1
  · rfl

/-- C9: refuted on the code — empty tokens are not discarded.  The
row-level `.filter(word => word)` tests the per-row token *arrays*, which
are always truthy, so it removes nothing; a row whose cleaned text ends
in whitespace (here the stripped `(%)`) contributes an empty-string token
that survives into the vocabulary. -/
theorem claim9_empty_token_retained :
    "" ∈ extractVocabulary ["male literacy rate (%)"] := by
  have h1 : (extractWords ["male literacy rate (%)"]).flatten =
      ["male", "literacy", "rate", ""] := by decide
  rw [extractVocabulary, h1]
  exact (mem_dedupFirst _ "").mpr (by decide)

/-- Helper for C10: the `WordProcessing` state after `getWordFrequency`
is unchanged for an empty word list and otherwise has its
`datamuseBaseUrl` field overwritten with the constant. -/
theorem getWordFrequencyState (fetchF : String → Except String (List DatamuseMatch)) :
    ∀ (words : List String) (st : WordProcessing),
      (getWordFrequency fetchF st words).2 =
        if words.isEmpty then st else { st with datamuseBaseUrl := datamuseWordsUrl }
  | [], _ => rfl
  | w :: ws, st => by
    have ih := getWordFrequencyState fetchF ws { st with datamuseBaseUrl := datamuseWordsUrl }
    have hconst : (if ws.isEmpty then { st with datamuseBaseUrl := datamuseWordsUrl }
        else { { st with datamuseBaseUrl := datamuseWordsUrl } with
          datamuseBaseUrl := datamuseWordsUrl }) =
        { st with datamuseBaseUrl := datamuseWordsUrl } := by
      split <;> rfl
    rw [hconst] at ih
    cases hf : fetchF w with
    | error e => simp [getWordFrequency, hf, ih]
    | ok data =>
      cases hr : (getWordFrequency fetchF
          { st with datamuseBaseUrl := datamuseWordsUrl } ws).1 with
      | error e => simp [getWordFrequency, hf, hr, ih]
      | ok tail =>
        cases data with
        | nil => simp [getWordFrequency, hf, hr, ih]
        | cons m ms => simp [getWordFrequency, hf, hr, ih]

/-- C10, counterexample: a client constructed with a different frequency
base URL does not keep it across a call — after fetching one word the
field holds the hardcoded constant, because the request-building template
literal contains the assignment `this.datamuseBaseUrl = '...'`. -/
theorem claim10_base_url_overwritten :
    ((getWordFrequency (fun _ => Except.ok [])
        { wordnikBaseUrl := "https://api.wordnik.com/v4/word.json"
          datamuseBaseUrl := "http://example.com/freq" } ["cat"]).2).datamuseBaseUrl ≠
      "http://example.com/freq" := by
  decide

/-- C10, amended: after a call to `getWordFrequency` the configured
frequency base URL is unchanged only when the word list is empty;
otherwise the field is overwritten with the constant
`https://api.datamuse.com/words` (so it is preserved exactly when it
already held that constant, as in main.js). -/
theorem claim10_base_url_after_call (fetchF : String → Except String (List DatamuseMatch))
    (st : WordProcessing) (words : List String) :
    ((getWordFrequency fetchF st words).2).datamuseBaseUrl =
      if words.isEmpty then st.datamuseBaseUrl else datamuseWordsUrl := by
  rw [getWordFrequencyState]
  by_cases h : words.isEmpty <;> simp [h]
